import Mathlib

/-!
Verification of the ROI odds-arbitrage core against its specification.

The Python sources are shallowly embedded:
* `src/models/bet.py`   — data model and pure odds-conversion helpers;
* `src/api/base_client.py` — the retry loop of `BaseAPIClient._make_request`,
  modelled as a function over an environment `Nat → HttpResp α` that yields the
  outcome of each HTTP attempt, returning the result together with the number
  of requests issued and the list of sleep durations, in order;
* `src/api/odds_api.py` — `_parse_event` normalization and `get_event_odds`;
* `src/analyzers/arbitrage.py` — `find_arbitrage` and `_check_two_way_market`.

Python floats are modelled as exact rationals (ℚ); timestamps are modelled as
the normalized ISO strings the code derives (`s.replace('Z', '+00:00')`);
Python's insertion-ordered `dict` is modelled as an association list.
-/

namespace ROI

/-- `Odds` dataclass from `src/models/bet.py`: one bookmaker's price for one
outcome of one market on one event. -/
structure Odds where
  bookmaker : String
  market : String
  outcome : String
  price : ℚ
  point : Option ℚ := none
  last_update : Option String := none
deriving Repr, DecidableEq

/-- `Event` dataclass from `src/models/bet.py`. `commence_time` is the
normalized ISO timestamp string. -/
structure Event where
  id : String
  sport : String
  commence_time : String
  home_team : String
  away_team : String
  bookmakers : List String
  odds_data : List Odds
deriving Repr, DecidableEq

/-- `ArbitrageOpportunity` dataclass from `src/models/bet.py` (the
`timestamp := datetime.now()` field is an effectful clock read and is not part
of the model). -/
structure ArbitrageOpportunity where
  event : Event
  bookmaker_1 : String
  outcome_1 : String
  odds_1 : ℚ
  bookmaker_2 : String
  outcome_2 : String
  odds_2 : ℚ
  profit_percentage : ℚ
  stake_1 : ℚ
  stake_2 : ℚ
  guaranteed_profit : ℚ
  market_type : String
deriving Repr, DecidableEq

/-- `convert_american_to_decimal` from `src/models/bet.py`:
`(a/100)+1` when `a > 0`, else `(100/|a|)+1`. -/
def convert_american_to_decimal (american_odds : ℚ) : ℚ :=
  if american_odds > 0 then american_odds / 100 + 1
  else 100 / |american_odds| + 1

/-- `convert_decimal_to_american` from `src/models/bet.py`:
`(d−1)×100` when `d ≥ 2.0`, else `−100/(d−1)`. -/
def convert_decimal_to_american (decimal_odds : ℚ) : ℚ :=
  if decimal_odds ≥ 2 then (decimal_odds - 1) * 100
  else -100 / (decimal_odds - 1)

/-- `calculate_implied_probability` from `src/models/bet.py`. -/
def calculate_implied_probability (decimal_odds : ℚ) : ℚ :=
  1 / decimal_odds

/-! ## The retry loop of `BaseAPIClient._make_request` (`src/api/base_client.py`)

The loop is `for attempt in range(self.retry_attempts)`. Each iteration issues
one HTTP request; the environment `env : Nat → HttpResp α` gives the outcome of
the `n`-th request (0-based). The body:
* status 429 → `time.sleep(60); continue` (the `for` counter still advances);
* `raise_for_status()` raises `HTTPError` for `400 ≤ code < 600`; `HTTPError`
  is a subclass of `RequestException`, so it is caught by the generic handler:
  re-raised on the last iteration, otherwise `time.sleep(2 ** attempt)`;
* `requests.exceptions.Timeout` → re-raised on the last iteration, otherwise
  `time.sleep(2 ** attempt)`;
* other `RequestException` (connection errors) → same as timeout;
* otherwise the parsed body is returned.
Falling out of the loop raises `RequestException("Max retry attempts reached")`.
-/

/-- Outcome of a single HTTP attempt, as seen by the client. -/
inductive HttpResp (α : Type) where
  | status (code : Nat) (body : α)
  | timeout
  | connError
deriving Repr

/-- The error with which `_make_request` ultimately raises. -/
inductive ReqError where
  | timeoutErr
  | httpStatus (code : Nat)
  | connFailure
  | maxRetries
deriving Repr, DecidableEq

/-- Observable outcome of one `_make_request` call: the returned payload or
raised error, the number of HTTP requests issued, and every `time.sleep`
duration in order. -/
structure ReqTrace (α : Type) where
  result : Except ReqError α
  requests : Nat
  sleeps : List Nat
deriving Repr

/-- Prepend a sleep to a trace. -/
def addSleep (d : Nat) (t : ReqTrace α) : ReqTrace α :=
  { t with sleeps := d :: t.sleeps }

/-- The loop body of `_make_request`, starting at iteration index `attempt`
with `fuel` iterations of `range(retry_attempts)` remaining (so this call is
the last iteration exactly when `fuel = 1`, matching
`attempt == self.retry_attempts - 1`). -/
def makeRequestAux (env : Nat → HttpResp α) : Nat → Nat → ReqTrace α
  | attempt, 0 => ⟨.error .maxRetries, attempt, []⟩
  | attempt, fuel + 1 =>
    match env attempt with
    | .status code body =>
      if code = 429 then
        addSleep 60 (makeRequestAux env (attempt + 1) fuel)
      else if 400 ≤ code ∧ code < 600 then
        if fuel = 0 then ⟨.error (.httpStatus code), attempt + 1, []⟩
        else addSleep (2 ^ attempt) (makeRequestAux env (attempt + 1) fuel)
      else ⟨.ok body, attempt + 1, []⟩
    | .timeout =>
      if fuel = 0 then ⟨.error .timeoutErr, attempt + 1, []⟩
      else addSleep (2 ^ attempt) (makeRequestAux env (attempt + 1) fuel)
    | .connError =>
      if fuel = 0 then ⟨.error .connFailure, attempt + 1, []⟩
      else addSleep (2 ^ attempt) (makeRequestAux env (attempt + 1) fuel)

/-- `BaseAPIClient._make_request` with `retry_attempts` configured attempts. -/
def make_request (env : Nat → HttpResp α) (retry_attempts : Nat) : ReqTrace α :=
  makeRequestAux env 0 retry_attempts

/-- Classify an attempt outcome as a retryable failure (an exception caught by
the loop's `except` clauses): timeouts, connection errors, and HTTP statuses in
`[400, 600)` other than 429. -/
def failKind : HttpResp α → Option ReqError
  | .status code _ =>
    if code = 429 then none
    else if 400 ≤ code ∧ code < 600 then some (.httpStatus code) else none
  | .timeout => some .timeoutErr
  | .connError => some .connFailure

/-! ## Normalization (`OddsAPIClient._parse_event`, `src/api/odds_api.py`)

The raw upstream payload is modelled by the `Raw*` structures below, mirroring
the JSON shape `{id, sport_key, commence_time, home_team, away_team,
bookmakers: [{key, last_update, markets: [{key, outcomes: [{name, price,
point?}]}]}]}`. -/

/-- One outcome object of the upstream payload. -/
structure RawOutcome where
  name : String
  price : ℚ
  point : Option ℚ
deriving Repr, DecidableEq

/-- One market object of the upstream payload. -/
structure RawMarket where
  key : String
  outcomes : List RawOutcome
deriving Repr, DecidableEq

/-- One bookmaker object of the upstream payload. -/
structure RawBookmaker where
  key : String
  last_update : String
  markets : List RawMarket
deriving Repr, DecidableEq

/-- One event object of the upstream payload. -/
structure RawEvent where
  id : String
  sport_key : String
  commence_time : String
  home_team : String
  away_team : String
  bookmakers : List RawBookmaker
deriving Repr, DecidableEq

/-- The internal timestamp obtained from an upstream ISO-8601 string:
`s.replace('Z', '+00:00')` fed to `datetime.fromisoformat`. Since the pattern
is the single character `Z`, Python's replace is exactly this character-wise
substitution. -/
def parseTimestamp (s : String) : String :=
  String.mk (s.data.flatMap (fun c => if c = 'Z' then "+00:00".data else [c]))

/-- `OddsAPIClient._parse_event`: walks bookmaker → market → outcome and
flattens into the event's single ordered odds collection. -/
def parse_event (data : RawEvent) : Event :=
  { id := data.id
    sport := data.sport_key
    commence_time := parseTimestamp data.commence_time
    home_team := data.home_team
    away_team := data.away_team
    bookmakers := data.bookmakers.map (fun b => b.key)
    odds_data := data.bookmakers.flatMap (fun b =>
      b.markets.flatMap (fun m =>
        m.outcomes.map (fun o =>
          { bookmaker := b.key
            market := m.key
            outcome := o.name
            price := o.price
            point := o.point
            last_update := some (parseTimestamp b.last_update) }))) }

/-- `OddsAPIClient.get_event_odds`: wraps `_make_request` + `_parse_event` in
`try: … except Exception: return None`. The request payload is the decoded
JSON body; `none` as a body models a payload on which `_parse_event` raises
(e.g. a missing required field). -/
def get_event_odds (env : Nat → HttpResp (Option RawEvent))
    (retry_attempts : Nat) : Option Event :=
  match (make_request env retry_attempts).result with
  | .ok (some raw) => some (parse_event raw)
  | .ok none => none
  | .error _ => none

/-! ## Arbitrage detection (`ArbitrageAnalyzer`, `src/analyzers/arbitrage.py`) -/

/-- Loop body of `ArbitrageAnalyzer._group_odds_by_outcome`: Python's
insertion-ordered `dict` keyed by outcome label, as an association list. -/
def group_step (grouped : List (String × List Odds)) (odd : Odds) :
    List (String × List Odds) :=
  if grouped.any (fun pr => pr.1 == odd.outcome) then
    grouped.map (fun pr =>
      if pr.1 == odd.outcome then (pr.1, pr.2 ++ [odd]) else pr)
  else grouped ++ [(odd.outcome, [odd])]

/-- `ArbitrageAnalyzer._group_odds_by_outcome`. -/
def group_odds_by_outcome (odds : List Odds) : List (String × List Odds) :=
  odds.foldl group_step []

/-- Python's `max(odds, key=lambda x: x.price)`: the first element whose price
is maximal (`max` only replaces the running maximum on a strict increase);
`none` on the empty list, where Python would raise `ValueError`. -/
def bestOdds : List Odds → Option Odds
  | [] => none
  | h :: t => some (t.foldl (fun best o => if best.price < o.price then o else best) h)

/-- `ArbitrageAnalyzer._check_two_way_market`. The `len(odds_by_outcome) != 2`
early return and the `outcomes[0]`/`outcomes[1]` selection are expressed by
matching the association list against a two-entry pattern; the `none` branches
of `bestOdds` are unreachable because every group is nonempty by
construction. -/
def check_two_way_market (min_profit_percentage max_stake : ℚ)
    (event : Event) (market_type : String) : List ArbitrageOpportunity :=
  let market_odds := event.odds_data.filter (fun o => o.market == market_type)
  if market_odds.isEmpty then []
  else
    match group_odds_by_outcome market_odds with
    | [(_, g1), (_, g2)] =>
      match bestOdds g1, bestOdds g2 with
      | some best_odds_1, some best_odds_2 =>
        let implied_prob_1 := calculate_implied_probability best_odds_1.price
        let implied_prob_2 := calculate_implied_probability best_odds_2.price
        let total_implied_prob := implied_prob_1 + implied_prob_2
        if total_implied_prob < 1 then
          let profit_percentage := (1 / total_implied_prob - 1) * 100
          if profit_percentage ≥ min_profit_percentage then
            let stake_1 := max_stake * (implied_prob_1 / total_implied_prob)
            let stake_2 := max_stake * (implied_prob_2 / total_implied_prob)
            let payout_1 := stake_1 * best_odds_1.price
            let payout_2 := stake_2 * best_odds_2.price
            [{ event := event
               bookmaker_1 := best_odds_1.bookmaker
               outcome_1 := best_odds_1.outcome
               odds_1 := best_odds_1.price
               bookmaker_2 := best_odds_2.bookmaker
               outcome_2 := best_odds_2.outcome
               odds_2 := best_odds_2.price
               profit_percentage := profit_percentage
               stake_1 := stake_1
               stake_2 := stake_2
               guaranteed_profit := min payout_1 payout_2 - max_stake
               market_type := market_type }]
          else []
        else []
      | _, _ => []
    | _ => []

/-- `ArbitrageAnalyzer.find_arbitrage`: checks the `h2h` and `totals` markets
of every event, in order. -/
def find_arbitrage (min_profit_percentage max_stake : ℚ)
    (events : List Event) : List ArbitrageOpportunity :=
  events.flatMap (fun event =>
    check_two_way_market min_profit_percentage max_stake event "h2h" ++
    check_two_way_market min_profit_percentage max_stake event "totals")

/-- Number of distinct outcome labels an event's odds carry for a market. -/
def distinct_outcome_count (event : Event) (market_type : String) : Nat :=
  ((event.odds_data.filter (fun o => o.market == market_type)).map
    (fun o => o.outcome)).dedup.length

/-! ## Concrete inputs used by witnesses -/

/-- Two-bookmaker h2h event with best prices 2.10 and 2.05 (the spec's §8
worked example): implied probabilities sum to 830/861 < 1. -/
def evW : Event :=
  { id := "ev-arb"
    sport := "americanfootball_nfl"
    commence_time := "2024-01-02T00:00:00+00:00"
    home_team := "Chiefs"
    away_team := "Bills"
    bookmakers := ["draftkings", "betmgm"]
    odds_data :=
      [ ⟨"draftkings", "h2h", "Chiefs", 21/10, none, none⟩,
        ⟨"betmgm", "h2h", "Bills", 41/20, none, none⟩ ] }

/-- An event whose h2h market carries three distinct outcome labels. -/
def ev3 : Event :=
  { id := "ev-3way"
    sport := "soccer_epl"
    commence_time := "2024-01-02T00:00:00+00:00"
    home_team := "Arsenal"
    away_team := "Chelsea"
    bookmakers := ["bk1"]
    odds_data :=
      [ ⟨"bk1", "h2h", "Arsenal", 3, none, none⟩,
        ⟨"bk1", "h2h", "Draw", 3, none, none⟩,
        ⟨"bk1", "h2h", "Chelsea", 3, none, none⟩ ] }

/-- A raw upstream payload with two bookmakers. -/
def rawW : RawEvent :=
  { id := "ev1"
    sport_key := "americanfootball_nfl"
    commence_time := "2024-01-02T00:00:00Z"
    home_team := "Chiefs"
    away_team := "Bills"
    bookmakers :=
      [ ⟨"draftkings", "2024-01-01T00:00:00Z",
          [⟨"h2h", [⟨"Chiefs", 2, none⟩]⟩]⟩,
        ⟨"betmgm", "2024-01-01T00:00:00Z",
          [⟨"h2h", [⟨"Bills", 21/10, none⟩]⟩]⟩ ] }

/-- The opportunity the analyzer reports on `evW` at threshold 2 and budget
1000: implied probabilities 10/21 + 20/41 = 830/861, profit (861/830 − 1)×100
= 310/83 ≈ 3.73%, stakes 41000/83 and 42000/83, common payout 86100/83. -/
def oppW : ArbitrageOpportunity :=
  { event := evW
    bookmaker_1 := "draftkings"
    outcome_1 := "Chiefs"
    odds_1 := 21/10
    bookmaker_2 := "betmgm"
    outcome_2 := "Bills"
    odds_2 := 41/20
    profit_percentage := 310/83
    stake_1 := 41000/83
    stake_2 := 42000/83
    guaranteed_profit := 3100/83
    market_type := "h2h" }

/-! # Theorems -/

/-- C4 counterexample: at American odds `x = 50` the round trip yields `−200`,
not `50`: `convert_american_to_decimal 50 = 1.5`, which falls into the
`−100/(d−1)` branch of `convert_decimal_to_american`. -/
theorem c4_counterexample :
    convert_decimal_to_american (convert_american_to_decimal 50) = -200 ∧
    convert_decimal_to_american (convert_american_to_decimal 50) ≠ 50 := by
  constructor <;> norm_num [convert_american_to_decimal, convert_decimal_to_american]

/-- C4 (amended): the conversions are mutual inverses on the genuine American
odds range — the decimal→American→decimal round trip holds for every decimal
price `d > 1`, and the American→decimal→American round trip holds for
`x ≥ 100` or `x < −100` (it fails on `0 < x < 100` and on `−100 ≤ x < 0`,
which are not attainable American quotes, and at `x = −100`, which collides
with `x = 100` at decimal `2.0`). -/
theorem c4_amended :
    (∀ x : ℚ, (100 ≤ x ∨ x < -100) →
      convert_decimal_to_american (convert_american_to_decimal x) = x) ∧
    (∀ d : ℚ, 1 < d →
      convert_american_to_decimal (convert_decimal_to_american d) = d) := by
  constructor
  · intro x hx
    rcases hx with hx | hx
    · have h0 : (0:ℚ) < x := lt_of_lt_of_le (by norm_num) hx
      rw [convert_american_to_decimal, if_pos h0]
      have h2 : x / 100 + 1 ≥ 2 := by linarith [(by linarith : (1:ℚ) ≤ x / 100)]
      rw [convert_decimal_to_american, if_pos h2]
      ring
    · have h0 : ¬ (0:ℚ) < x := by linarith
      rw [convert_american_to_decimal, if_neg h0]
      have habs : |x| = -x := abs_of_neg (by linarith)
      rw [habs]
      have hxne : x ≠ 0 := by linarith
      have hlt : 100 / -x + 1 < 2 := by
        have hpos : (0:ℚ) < -x := by linarith
        have : 100 / -x < 1 := (div_lt_one hpos).mpr (by linarith)
        linarith
      rw [convert_decimal_to_american, if_neg (by linarith)]
      field_simp
  · intro d hd
    by_cases h2 : d ≥ 2
    · rw [convert_decimal_to_american, if_pos h2]
      have hpos : (d - 1) * 100 > 0 := by nlinarith
      rw [convert_american_to_decimal, if_pos hpos]
      ring
    · rw [convert_decimal_to_american, if_neg h2]
      have hd1 : (0:ℚ) < d - 1 := by linarith
      have hneg : -100 / (d - 1) < 0 := by
        apply div_neg_of_neg_of_pos <;> [norm_num; exact hd1]
      rw [convert_american_to_decimal, if_neg (by linarith)]
      rw [abs_of_neg hneg]
      field_simp

/-- Witness for C4 (amended) at `x = 150` and `d = 3`. -/
theorem c4_amended_witness :
    convert_decimal_to_american (convert_american_to_decimal 150) = 150 ∧
    convert_american_to_decimal (convert_decimal_to_american 3) = 3 :=
  ⟨c4_amended.1 150 (Or.inl (by norm_num)), c4_amended.2 3 (by norm_num)⟩

/-- Backoff sleeps shift by one when the starting attempt index shifts. -/
theorem range_pow_shift (attempt f2 : Nat) :
    (List.range (f2 + 1)).map (fun i => (2:Nat) ^ (attempt + i)) =
      2 ^ attempt :: (List.range f2).map (fun i => 2 ^ (attempt + 1 + i)) := by
  rw [List.range_succ_eq_map]
  simp only [List.map_cons, List.map_map, Nat.add_zero]
  refine congrArg _ ?_
  apply List.map_congr_left
  intro i _
  simp only [Function.comp_apply]
  congr 1
  omega

/-- Step lemma: a 429 response sleeps 60 and re-enters the loop, with the
`for` counter advanced. -/
theorem makeRequestAux_429_step (env : Nat → HttpResp α) (attempt f : Nat)
    (body : α) (h : env attempt = .status 429 body) :
    makeRequestAux env attempt (f + 1) =
      addSleep 60 (makeRequestAux env (attempt + 1) f) := by
  simp [makeRequestAux, h]

/-- Step lemma: a retryable failure on the last iteration raises its error. -/
theorem makeRequestAux_fail_last (env : Nat → HttpResp α) (attempt : Nat)
    (e : ReqError) (h : failKind (env attempt) = some e) :
    makeRequestAux env attempt 1 = ⟨.error e, attempt + 1, []⟩ := by
  cases hr : env attempt with
  | status code body =>
    rw [hr] at h
    simp only [failKind] at h
    by_cases h429 : code = 429
    · rw [if_pos h429] at h
      exact absurd h (by simp)
    · rw [if_neg h429] at h
      by_cases hrange : 400 ≤ code ∧ code < 600
      · rw [if_pos hrange] at h
        injection h with he
        subst he
        simp [makeRequestAux, hr, h429, hrange]
      · rw [if_neg hrange] at h
        exact absurd h (by simp)
  | timeout =>
    rw [hr] at h
    simp only [failKind] at h
    injection h with he
    subst he
    simp [makeRequestAux, hr]
  | connError =>
    rw [hr] at h
    simp only [failKind] at h
    injection h with he
    subst he
    simp [makeRequestAux, hr]

/-- Step lemma: a retryable failure on a non-final iteration sleeps
`2 ^ attempt` and re-enters the loop. -/
theorem makeRequestAux_fail_step (env : Nat → HttpResp α) (attempt f : Nat)
    (e : ReqError) (h : failKind (env attempt) = some e) (hf : f ≠ 0) :
    makeRequestAux env attempt (f + 1) =
      addSleep (2 ^ attempt) (makeRequestAux env (attempt + 1) f) := by
  cases hr : env attempt with
  | status code body =>
    rw [hr] at h
    simp only [failKind] at h
    by_cases h429 : code = 429
    · rw [if_pos h429] at h
      exact absurd h (by simp)
    · rw [if_neg h429] at h
      by_cases hrange : 400 ≤ code ∧ code < 600
      · simp [makeRequestAux, hr, h429, hrange, hf]
      · rw [if_neg hrange] at h
        exact absurd h (by simp)
  | timeout =>
    simp [makeRequestAux, hr, hf]
  | connError =>
    simp [makeRequestAux, hr, hf]

/-- If every attempt fails with the same retryable error kind `e`, the loop
runs all its iterations, sleeping `2 ^ attempt` after each non-final one, and
raises `e` from the last. -/
theorem makeRequestAux_const_fail (env : Nat → HttpResp α) (e : ReqError)
    (henv : ∀ n, failKind (env n) = some e) :
    ∀ fuel attempt, 1 ≤ fuel →
      makeRequestAux env attempt fuel =
        ⟨.error e, attempt + fuel,
          (List.range (fuel - 1)).map (fun i => 2 ^ (attempt + i))⟩ := by
  intro fuel
  induction fuel with
  | zero => intro attempt h; omega
  | succ f ih =>
    intro attempt _
    cases f with
    | zero =>
      simpa using makeRequestAux_fail_last env attempt e (henv attempt)
    | succ f2 =>
      rw [makeRequestAux_fail_step env attempt (f2 + 1) e (henv attempt)
        (Nat.succ_ne_zero f2), ih (attempt + 1) (by omega)]
      simp only [addSleep, Nat.add_sub_cancel]
      rw [range_pow_shift attempt f2]
      simp only [ReqTrace.mk.injEq, true_and, and_true]
      omega

/-- Total number of HTTP requests never exceeds the iteration budget. -/
theorem makeRequestAux_requests_le (env : Nat → HttpResp α) :
    ∀ fuel attempt, (makeRequestAux env attempt fuel).requests ≤ attempt + fuel := by
  intro fuel
  induction fuel with
  | zero => intro attempt; simp [makeRequestAux]
  | succ f ih =>
    intro attempt
    have hb := ih (attempt + 1)
    cases hr : env attempt with
    | status code body =>
      simp only [makeRequestAux, hr]
      split_ifs <;> simp [addSleep] <;> omega
    | timeout =>
      simp only [makeRequestAux, hr]
      split_ifs <;> simp [addSleep] <;> omega
    | connError =>
      simp only [makeRequestAux, hr]
      split_ifs <;> simp [addSleep] <;> omega

/-- C8: when every attempt times out, `_make_request` makes exactly
`retry_attempts` attempts, sleeping `2^(n−1)` time units after the `n`-th
failed attempt for `n < retry_attempts`, then raises the timeout; and for any
behaviour of the upstream the loop issues at most `retry_attempts` requests. -/
theorem c8_timeout_exhaustion {α : Type} (a : Nat) (ha : 1 ≤ a)
    (env : Nat → HttpResp α) (henv : ∀ n, env n = .timeout) :
    (make_request env a =
      ⟨.error .timeoutErr, a, (List.range (a - 1)).map (fun i => 2 ^ i)⟩) ∧
    ∀ env2 : Nat → HttpResp α, (make_request env2 a).requests ≤ a := by
  constructor
  · have h := makeRequestAux_const_fail env .timeoutErr
      (fun n => by rw [henv n]; rfl) a 0 ha
    simpa [make_request] using h
  · intro env2
    simpa [make_request] using makeRequestAux_requests_le env2 a 0

/-- Witness for C8 at `retry_attempts = 3` and an all-timeout upstream. -/
theorem c8_timeout_exhaustion_witness :
    (make_request (fun _ => (HttpResp.timeout : HttpResp Nat)) 3 =
      ⟨.error .timeoutErr, 3, (List.range 2).map (fun i => 2 ^ i)⟩) ∧
    (make_request (fun _ => (HttpResp.timeout : HttpResp Nat)) 3).requests ≤ 3 := by
  have h := c8_timeout_exhaustion 3 (by norm_num)
    (fun _ => (HttpResp.timeout : HttpResp Nat)) (fun _ => rfl)
  exact ⟨h.1, h.2 _⟩

/-- C1 counterexample: with `retry_attempts = 3` and every response HTTP 429,
the loop exits after exactly 3 requests (each 429 consumed one loop iteration)
and raises `RequestException("Max retry attempts reached")` — it does not keep
re-attempting, and the 429 waits did exhaust the attempt budget. -/
theorem c1_counterexample :
    make_request (fun _ => HttpResp.status 429 (0 : Nat)) 3 =
      ⟨.error .maxRetries, 3, [60, 60, 60]⟩ := rfl

/-- Helper for C1 (amended): an all-429 upstream drives the loop through all
its iterations, sleeping 60 each time, and ends in the max-retries raise. -/
theorem makeRequestAux_const_429 {α : Type} (env : Nat → HttpResp α)
    (body : Nat → α) (henv : ∀ n, env n = .status 429 (body n)) :
    ∀ fuel attempt, makeRequestAux env attempt fuel =
      ⟨.error .maxRetries, attempt + fuel, List.replicate fuel 60⟩ := by
  intro fuel
  induction fuel with
  | zero => intro attempt; simp [makeRequestAux]
  | succ f ih =>
    intro attempt
    rw [makeRequestAux_429_step env attempt f (body attempt) (henv attempt),
      ih (attempt + 1)]
    simp only [addSleep, List.replicate_succ, ReqTrace.mk.injEq, true_and,
      and_true]
    omega

/-- C1 (amended): an HTTP 429 response causes a fixed 60-second wait followed
by a re-attempt, but each such wait consumes one unit of the shared
`retry_attempts` budget: after `retry_attempts` consecutive 429 responses the
call stops and raises a max-retries error instead of retrying without bound. -/
theorem c1_amended {α : Type} (a : Nat) (body : Nat → α)
    (env : Nat → HttpResp α) (henv : ∀ n, env n = .status 429 (body n)) :
    make_request env a = ⟨.error .maxRetries, a, List.replicate a 60⟩ := by
  simpa [make_request] using makeRequestAux_const_429 env body henv a 0

/-- Witness for C1 (amended) at `retry_attempts = 2`. -/
theorem c1_amended_witness :
    make_request (fun _ => HttpResp.status 429 (0 : Nat)) 2 =
      ⟨.error .maxRetries, 2, List.replicate 2 60⟩ :=
  c1_amended 2 (fun _ => 0) _ (fun _ => rfl)

/-- C2 counterexample: with `retry_attempts = 3` and every response HTTP 500,
the client issues 3 requests and sleeps `[1, 2]` between them — a non-2xx,
non-429 status is retried with exponential backoff (the `HTTPError` raised by
`raise_for_status` is a `RequestException`, so the generic retry handler
catches it), not surfaced immediately on the attempt that received it. -/
theorem c2_counterexample :
    make_request (fun _ => HttpResp.status 500 (0 : Nat)) 3 =
      ⟨.error (.httpStatus 500), 3, [1, 2]⟩ := rfl

/-- C2 (amended): a response with status in `[400, 600)` other than 429 is
treated like a transport failure: retried with exponential backoff `2^(n−1)`
after the `n`-th attempt, and the upstream-status error surfaces only once the
`retry_attempts` budget is exhausted. -/
theorem c2_amended {α : Type} (a : Nat) (ha : 1 ≤ a) (code : Nat)
    (hc1 : 400 ≤ code) (hc2 : code < 600) (hc3 : code ≠ 429) (body : Nat → α)
    (env : Nat → HttpResp α) (henv : ∀ n, env n = .status code (body n)) :
    make_request env a =
      ⟨.error (.httpStatus code), a,
        (List.range (a - 1)).map (fun i => 2 ^ i)⟩ := by
  have h := makeRequestAux_const_fail env (.httpStatus code)
    (fun n => by rw [henv n]; simp [failKind, hc1, hc2, hc3]) a 0 ha
  simpa [make_request] using h

/-- Witness for C2 (amended) at `retry_attempts = 3`, status 500. -/
theorem c2_amended_witness :
    make_request (fun _ => HttpResp.status 500 (0 : Nat)) 3 =
      ⟨.error (.httpStatus 500), 3, (List.range 2).map (fun i => 2 ^ i)⟩ :=
  c2_amended 3 (by norm_num) 500 (by norm_num) (by norm_num) (by norm_num)
    (fun _ => 0) _ (fun _ => rfl)

/-- C9: `_parse_event` attributes every flattened odds entry to a bookmaker of
the event's bookmaker set, and the flattening is lossless: projecting the
odds collection to (bookmaker, market, outcome, price, point) yields exactly
the input's nested triples, in order, each exactly once. -/
theorem c9_parse_event_lossless (data : RawEvent) :
    (∀ od ∈ (parse_event data).odds_data,
      od.bookmaker ∈ (parse_event data).bookmakers) ∧
    ((parse_event data).odds_data.map
        (fun od => (od.bookmaker, od.market, od.outcome, od.price, od.point)) =
      data.bookmakers.flatMap (fun b =>
        b.markets.flatMap (fun m =>
          m.outcomes.map (fun o => (b.key, m.key, o.name, o.price, o.point))))) := by
  constructor
  · intro od hod
    simp only [parse_event, List.mem_flatMap, List.mem_map] at hod ⊢
    obtain ⟨b, hb, m, hm, o, ho, hod⟩ := hod
    exact ⟨b, hb, by rw [← hod]⟩
  · simp only [parse_event, List.map_flatMap, List.map_map]
    rfl

/-- Witness for C9 on the concrete two-bookmaker payload `rawW`. -/
theorem c9_parse_event_lossless_witness :
    ((Odds.mk "betmgm" "h2h" "Bills" (21/10) none
        (some (parseTimestamp "2024-01-01T00:00:00Z"))).bookmaker ∈
      (parse_event rawW).bookmakers) ∧
    ((parse_event rawW).odds_data.map
        (fun od => (od.bookmaker, od.market, od.outcome, od.price, od.point)) =
      [("draftkings", "h2h", "Chiefs", (2:ℚ), (none : Option ℚ)),
       ("betmgm", "h2h", "Bills", (21/10 : ℚ), (none : Option ℚ))]) := by
  refine ⟨(c9_parse_event_lossless rawW).1 _ ?_, ?_⟩
  · exact List.Mem.tail _ (List.Mem.head _)
  · rw [(c9_parse_event_lossless rawW).2]
    rfl

/-- C3 counterexample: an upstream that only ever times out (never a
not-found condition) still makes `get_event_odds` return `None` — the
transport failure is silently converted into the absent result instead of
being surfaced as a typed error. -/
theorem c3_counterexample :
    get_event_odds (fun _ => HttpResp.timeout) 3 = none := rfl

/-- C3 (amended): `get_event_odds` returns `None` on every failure — any
error raised by the request machinery (timeout exhaustion, rate-limit
exhaustion, any non-2xx status including not-found, connection failure) and
any payload on which parsing raises — and returns the parsed event exactly
when the request succeeds with a parseable payload; no failure is ever
surfaced to the caller. -/
theorem c3_amended (env : Nat → HttpResp (Option RawEvent)) (a : Nat) :
    (∀ e : ReqError, (make_request env a).result = .error e →
      get_event_odds env a = none) ∧
    ((make_request env a).result = .ok none → get_event_odds env a = none) ∧
    (∀ raw : RawEvent, (make_request env a).result = .ok (some raw) →
      get_event_odds env a = some (parse_event raw)) := by
  refine ⟨fun e he => ?_, fun h => ?_, fun raw hr => ?_⟩
  · unfold get_event_odds
    rw [he]
  · unfold get_event_odds
    rw [h]
  · unfold get_event_odds
    rw [hr]

/-- Witness for C3 (amended): a timeout-exhausted call yields `None`, and a
successful call yields the parsed event. -/
theorem c3_amended_witness :
    get_event_odds (fun _ => HttpResp.timeout) 2 = none ∧
    get_event_odds (fun _ => HttpResp.status 200 (some rawW)) 1 =
      some (parse_event rawW) :=
  ⟨(c3_amended (fun _ => HttpResp.timeout) 2).1 .timeoutErr rfl,
   (c3_amended _ 1).2.2 rawW rfl⟩

/-- The grouping loop preserves any property of group entries: groups stay
nonempty and their elements satisfy `P` whenever the incoming odds do. -/
theorem group_foldl_inv (P : Odds → Prop) :
    ∀ (l : List Odds) (acc : List (String × List Odds)),
      (∀ pr ∈ acc, pr.2 ≠ [] ∧ ∀ o ∈ pr.2, P o) →
      (∀ o ∈ l, P o) →
      ∀ pr ∈ l.foldl group_step acc, pr.2 ≠ [] ∧ ∀ o ∈ pr.2, P o := by
  intro l
  induction l with
  | nil => intro acc hacc _ pr hpr; exact hacc pr hpr
  | cons o t ih =>
    intro acc hacc hl
    have hPo : P o := hl o (List.mem_cons_self o t)
    rw [List.foldl_cons]
    apply ih
    · intro pr hpr
      unfold group_step at hpr
      by_cases hany : acc.any (fun q => q.1 == o.outcome) = true
      · rw [if_pos hany] at hpr
        obtain ⟨q, hq, hqe⟩ := List.mem_map.mp hpr
        by_cases hqo : (q.1 == o.outcome) = true
        · rw [if_pos hqo] at hqe
          rw [← hqe]
          refine ⟨by simp, ?_⟩
          intro x hx
          rcases List.mem_append.mp hx with hx | hx
          · exact (hacc q hq).2 x hx
          · rw [List.mem_singleton.mp hx]
            exact hPo
        · rw [if_neg hqo] at hqe
          rw [← hqe]
          exact hacc q hq
      · rw [if_neg hany] at hpr
        rcases List.mem_append.mp hpr with hpr | hpr
        · exact hacc pr hpr
        · rw [List.mem_singleton.mp hpr]
          exact ⟨by simp, fun x hx => by
            rw [List.mem_singleton.mp hx]; exact hPo⟩
    · intro x hx
      exact hl x (List.mem_cons_of_mem o hx)

/-- The keys of `group_step` are unchanged when the outcome is already a key
and gain exactly the new outcome otherwise. -/
theorem group_step_keys (acc : List (String × List Odds)) (o : Odds) :
    (group_step acc o).map Prod.fst =
      if acc.any (fun q => q.1 == o.outcome) then acc.map Prod.fst
      else acc.map Prod.fst ++ [o.outcome] := by
  unfold group_step
  by_cases h : acc.any (fun q => q.1 == o.outcome) = true
  · rw [if_pos h, if_pos h, List.map_map]
    apply List.map_congr_left
    intro q _
    by_cases hq : (q.1 == o.outcome) = true
    · simp [Function.comp, hq]
    · simp [Function.comp, hq]
  · rw [if_neg h, if_neg h, List.map_append]
    rfl

/-- The key set of the grouping accumulates exactly the outcome labels. -/
theorem group_foldl_keys :
    ∀ (l : List Odds) (acc : List (String × List Odds)),
      ((l.foldl group_step acc).map Prod.fst).toFinset =
        (acc.map Prod.fst).toFinset ∪
          (l.map (fun o => o.outcome)).toFinset := by
  intro l
  induction l with
  | nil => intro acc; simp
  | cons o t ih =>
    intro acc
    rw [List.foldl_cons, ih, group_step_keys]
    by_cases h : acc.any (fun q => q.1 == o.outcome) = true
    · rw [if_pos h]
      have hmem : o.outcome ∈ acc.map Prod.fst := by
        rcases List.any_eq_true.mp h with ⟨q, hq, hqe⟩
        exact List.mem_map.mpr ⟨q, hq, eq_of_beq hqe⟩
      ext x
      simp only [Finset.mem_union, List.mem_toFinset, List.map_cons,
        List.toFinset_cons, Finset.mem_insert]
      constructor
      · rintro (hx | hx)
        · exact Or.inl hx
        · exact Or.inr (Or.inr hx)
      · rintro (hx | rfl | hx)
        · exact Or.inl hx
        · exact Or.inl hmem
        · exact Or.inr hx
    · rw [if_neg h]
      ext x
      simp only [Finset.mem_union, List.mem_toFinset, List.map_cons,
        List.toFinset_cons, Finset.mem_insert, List.mem_append,
        List.mem_singleton]
      tauto

/-- The grouping never duplicates a key. -/
theorem group_foldl_keys_nodup :
    ∀ (l : List Odds) (acc : List (String × List Odds)),
      ((acc.map Prod.fst).Nodup) →
      ((l.foldl group_step acc).map Prod.fst).Nodup := by
  intro l
  induction l with
  | nil => intro acc h; exact h
  | cons o t ih =>
    intro acc h
    rw [List.foldl_cons]
    apply ih
    rw [group_step_keys]
    by_cases hany : acc.any (fun q => q.1 == o.outcome) = true
    · rw [if_pos hany]
      exact h
    · rw [if_neg hany]
      have hnot : o.outcome ∉ acc.map Prod.fst := by
        intro hmem
        apply hany
        rcases List.mem_map.mp hmem with ⟨q, hq, hqe⟩
        exact List.any_eq_true.mpr ⟨q, hq, by rw [hqe]; exact beq_self_eq_true _⟩
      simp [List.nodup_append, h, hnot]

/-- The number of groups equals the number of distinct outcome labels. -/
theorem group_length_eq (l : List Odds) :
    (group_odds_by_outcome l).length =
      (l.map (fun o => o.outcome)).dedup.length := by
  have hkeys := group_foldl_keys l []
  have hnodup := group_foldl_keys_nodup l [] (by simp)
  have h1 : ((group_odds_by_outcome l).map Prod.fst).toFinset =
      (l.map (fun o => o.outcome)).toFinset := by
    simpa [group_odds_by_outcome] using hkeys
  calc (group_odds_by_outcome l).length
      = ((group_odds_by_outcome l).map Prod.fst).length :=
        (List.length_map _ _).symm
    _ = ((group_odds_by_outcome l).map Prod.fst).toFinset.card :=
        (List.toFinset_card_of_nodup hnodup).symm
    _ = (l.map (fun o => o.outcome)).toFinset.card := by rw [h1]
    _ = (l.map (fun o => o.outcome)).dedup.length := List.card_toFinset _

/-- Python's keyed `max` returns an element of the scanned list. -/
theorem foldl_max_mem :
    ∀ (t : List Odds) (h : Odds),
      t.foldl (fun best o => if best.price < o.price then o else best) h ∈
        h :: t := by
  intro t
  induction t with
  | nil => intro h; simp
  | cons o t2 ih =>
    intro h
    rw [List.foldl_cons]
    rcases List.mem_cons.mp (ih (if h.price < o.price then o else h)) with
      heq | hmem
    · rw [heq]
      by_cases hc : h.price < o.price
      · simp [hc]
      · simp [hc]
    · exact List.mem_cons_of_mem _ (List.mem_cons_of_mem _ hmem)

/-- The best odds are drawn from the group scanned. -/
theorem bestOdds_mem {l : List Odds} {b : Odds} (h : bestOdds l = some b) :
    b ∈ l := by
  cases l with
  | nil => simp [bestOdds] at h
  | cons x t =>
    simp only [bestOdds, Option.some.injEq] at h
    rw [← h]
    exact foldl_max_mem t x

/-- A nonempty group always has best odds. -/
theorem bestOdds_of_ne_nil {l : List Odds} (h : l ≠ []) :
    ∃ b, bestOdds l = some b := by
  cases l with
  | nil => exact absurd rfl h
  | cons x t => exact ⟨_, rfl⟩

/-- Inversion for `check_two_way_market`: any reported opportunity comes from
two best-priced odds entries of the event's data for that market, the grouping
had exactly two outcome groups, the arbitrage and threshold conditions held,
and every field is the exact expression the code computes. -/
theorem mem_check_two_way (p s : ℚ) (e : Event) (mt : String)
    (opp : ArbitrageOpportunity)
    (h : opp ∈ check_two_way_market p s e mt) :
    ∃ b1 b2 : Odds, b1 ∈ e.odds_data ∧ b2 ∈ e.odds_data ∧
      (group_odds_by_outcome
        (e.odds_data.filter (fun o => o.market == mt))).length = 2 ∧
      1 / b1.price + 1 / b2.price < 1 ∧
      (1 / (1 / b1.price + 1 / b2.price) - 1) * 100 ≥ p ∧
      opp = { event := e
              bookmaker_1 := b1.bookmaker
              outcome_1 := b1.outcome
              odds_1 := b1.price
              bookmaker_2 := b2.bookmaker
              outcome_2 := b2.outcome
              odds_2 := b2.price
              profit_percentage :=
                (1 / (1 / b1.price + 1 / b2.price) - 1) * 100
              stake_1 := s * ((1 / b1.price) / (1 / b1.price + 1 / b2.price))
              stake_2 := s * ((1 / b2.price) / (1 / b1.price + 1 / b2.price))
              guaranteed_profit :=
                min (s * ((1 / b1.price) / (1 / b1.price + 1 / b2.price)) *
                      b1.price)
                    (s * ((1 / b2.price) / (1 / b1.price + 1 / b2.price)) *
                      b2.price) - s
              market_type := mt } := by
  simp only [check_two_way_market, calculate_implied_probability] at h
  split at h
  · exact absurd h (List.not_mem_nil opp)
  · split at h
    · rename_i a1 g1 a2 g2 heq
      split at h
      · rename_i b1 b2 hb1 hb2
        split at h
        · split at h
          · rename_i hlt hge
            have hgrp : (a1, g1) ∈ group_odds_by_outcome
                (e.odds_data.filter (fun o => o.market == mt)) := by
              rw [heq]
              exact List.mem_cons_self _ _
            have hgrp2 : (a2, g2) ∈ group_odds_by_outcome
                (e.odds_data.filter (fun o => o.market == mt)) := by
              rw [heq]
              exact List.mem_cons_of_mem _ (List.mem_cons_self _ _)
            have hinv := group_foldl_inv (fun o => o ∈ e.odds_data)
              (e.odds_data.filter (fun o => o.market == mt)) []
              (by simp)
              (fun o ho => (List.mem_filter.mp ho).1)
            have hb1m : b1 ∈ e.odds_data :=
              (hinv _ hgrp).2 b1 (bestOdds_mem hb1)
            have hb2m : b2 ∈ e.odds_data :=
              (hinv _ hgrp2).2 b2 (bestOdds_mem hb2)
            refine ⟨b1, b2, hb1m, hb2m, by rw [heq]; rfl, hlt, hge, ?_⟩
            rw [List.mem_singleton.mp h]
          · exact absurd h (List.not_mem_nil opp)
        · exact absurd h (List.not_mem_nil opp)
      · exact absurd h (List.not_mem_nil opp)
    · exact absurd h (List.not_mem_nil opp)

/-- C5: for an event and two-way market whose grouping yields exactly two
outcome groups with best per-outcome prices `b1.price`, `b2.price` and implied
probabilities `p1 = 1/b1.price`, `p2 = 1/b2.price`, the market produces an
opportunity iff `p1 + p2 < 1` and `(1/(p1+p2) − 1)×100 ≥ min_profit`; any
reported opportunity carries exactly that profit percentage. -/
theorem c5_profit_iff (p s : ℚ) (e : Event) (mt : String)
    (a1 a2 : String) (g1 g2 : List Odds) (b1 b2 : Odds)
    (hg : group_odds_by_outcome
        (e.odds_data.filter (fun o => o.market == mt)) = [(a1, g1), (a2, g2)])
    (hb1 : bestOdds g1 = some b1) (hb2 : bestOdds g2 = some b2)
    (p1 p2 : ℚ) (hp1 : p1 = 1 / b1.price) (hp2 : p2 = 1 / b2.price) :
    (check_two_way_market p s e mt ≠ [] ↔
      (p1 + p2 < 1 ∧ (1 / (p1 + p2) - 1) * 100 ≥ p)) ∧
    ∀ opp ∈ check_two_way_market p s e mt,
      opp.profit_percentage = (1 / (p1 + p2) - 1) * 100 := by
  subst hp1 hp2
  have hne : (e.odds_data.filter (fun o => o.market == mt)).isEmpty = false := by
    cases hfe : e.odds_data.filter (fun o => o.market == mt) with
    | nil => rw [hfe] at hg; simp [group_odds_by_outcome] at hg
    | cons x t => rfl
  simp only [check_two_way_market, calculate_implied_probability, hne,
    Bool.false_eq_true, if_false, hg, hb1, hb2]
  by_cases h1 : 1 / b1.price + 1 / b2.price < 1
  · by_cases h2 : (1 / (1 / b1.price + 1 / b2.price) - 1) * 100 ≥ p
    · rw [if_pos h1, if_pos h2]
      refine ⟨⟨fun _ => ⟨h1, h2⟩, fun _ => by simp⟩, ?_⟩
      intro opp hopp
      rw [List.mem_singleton.mp hopp]
    · rw [if_pos h1, if_neg h2]
      refine ⟨iff_of_false (by simp) (fun hcon => h2 hcon.2), ?_⟩
      intro opp hopp
      exact absurd hopp (List.not_mem_nil opp)
  · rw [if_neg h1]
    refine ⟨iff_of_false (by simp) (fun hcon => h1 hcon.1), ?_⟩
    intro opp hopp
    exact absurd hopp (List.not_mem_nil opp)

/-- C10: with all prices positive, no divisor the two-way check uses can be
zero: every outcome group is nonempty (so Python's `max` cannot raise), each
best price is positive (so `1/price` is well defined and positive), and the
total implied probability — the divisor of the profit and stake formulas — is
nonzero. -/
theorem c10_no_div_by_zero (e : Event) (mt : String)
    (hpos : ∀ o ∈ e.odds_data, 0 < o.price) :
    (∀ pr ∈ group_odds_by_outcome
        (e.odds_data.filter (fun o => o.market == mt)), pr.2 ≠ []) ∧
    (∀ (a1 : String) (g1 : List Odds) (a2 : String) (g2 : List Odds),
      group_odds_by_outcome (e.odds_data.filter (fun o => o.market == mt)) =
        [(a1, g1), (a2, g2)] →
      ∃ b1 b2 : Odds, bestOdds g1 = some b1 ∧ bestOdds g2 = some b2 ∧
        0 < b1.price ∧ 0 < b2.price ∧
        0 < 1 / b1.price ∧ 0 < 1 / b2.price ∧
        1 / b1.price + 1 / b2.price ≠ 0) := by
  have hinv := group_foldl_inv (fun o => 0 < o.price)
    (e.odds_data.filter (fun o => o.market == mt)) [] (by simp)
    (fun o ho => hpos o (List.mem_filter.mp ho).1)
  constructor
  · intro pr hpr
    exact (hinv pr hpr).1
  · intro a1 g1 a2 g2 hg
    have hgrp : (a1, g1) ∈ group_odds_by_outcome
        (e.odds_data.filter (fun o => o.market == mt)) := by
      rw [hg]
      exact List.mem_cons_self _ _
    have hgrp2 : (a2, g2) ∈ group_odds_by_outcome
        (e.odds_data.filter (fun o => o.market == mt)) := by
      rw [hg]
      exact List.mem_cons_of_mem _ (List.mem_cons_self _ _)
    have h1 := hinv (a1, g1) hgrp
    have h2 := hinv (a2, g2) hgrp2
    obtain ⟨b1, hb1⟩ := bestOdds_of_ne_nil h1.1
    obtain ⟨b2, hb2⟩ := bestOdds_of_ne_nil h2.1
    have hq1 : 0 < b1.price := h1.2 b1 (bestOdds_mem hb1)
    have hq2 : 0 < b2.price := h2.2 b2 (bestOdds_mem hb2)
    have hi1 : 0 < 1 / b1.price := by positivity
    have hi2 : 0 < 1 / b2.price := by positivity
    exact ⟨b1, b2, hb1, hb2, hq1, hq2, hi1, hi2,
      ne_of_gt (by positivity)⟩

/-- C6: every reported opportunity allocates
`stake_i = max_stake × (impliedProb_i / total)`; consequently the two legs pay
out equally, the stakes are non-negative and sum exactly to the stake budget,
and the guaranteed profit is the common payout minus the budget. -/
theorem c6_stake_allocation (p s : ℚ) (events : List Event) (hs : 0 ≤ s)
    (hpos : ∀ e ∈ events, ∀ o ∈ e.odds_data, 0 < o.price) :
    ∀ opp ∈ find_arbitrage p s events,
      opp.stake_1 = s * ((1 / opp.odds_1) / (1 / opp.odds_1 + 1 / opp.odds_2)) ∧
      opp.stake_2 = s * ((1 / opp.odds_2) / (1 / opp.odds_1 + 1 / opp.odds_2)) ∧
      opp.stake_1 * opp.odds_1 = opp.stake_2 * opp.odds_2 ∧
      opp.stake_1 + opp.stake_2 = s ∧
      0 ≤ opp.stake_1 ∧ 0 ≤ opp.stake_2 ∧
      opp.guaranteed_profit = opp.stake_1 * opp.odds_1 - s := by
  intro opp hopp
  rw [find_arbitrage] at hopp
  rcases List.mem_flatMap.mp hopp with ⟨e, he, hmem⟩
  rcases List.mem_append.mp hmem with hm | hm <;>
  · obtain ⟨b1, b2, hb1m, hb2m, _, hlt, hge, heq⟩ :=
      mem_check_two_way _ _ _ _ _ hm
    have hq1 : 0 < b1.price := hpos e he b1 hb1m
    have hq2 : 0 < b2.price := hpos e he b2 hb2m
    have hne1 : b1.price ≠ 0 := ne_of_gt hq1
    have hne2 : b2.price ≠ 0 := ne_of_gt hq2
    have hT : 0 < 1 / b1.price + 1 / b2.price := by positivity
    have hTne : 1 / b1.price + 1 / b2.price ≠ 0 := ne_of_gt hT
    subst heq
    have hpay : s * ((1 / b1.price) / (1 / b1.price + 1 / b2.price)) *
        b1.price = s * ((1 / b2.price) / (1 / b1.price + 1 / b2.price)) *
        b2.price := by
      field_simp
      ring
    refine ⟨rfl, rfl, hpay, ?_, ?_, ?_, ?_⟩
    · show s * ((1 / b1.price) / (1 / b1.price + 1 / b2.price)) +
        s * ((1 / b2.price) / (1 / b1.price + 1 / b2.price)) = s
      field_simp
      ring
    · exact mul_nonneg hs (le_of_lt (by positivity))
    · exact mul_nonneg hs (le_of_lt (by positivity))
    · show min _ _ - s = _
      rw [hpay, min_self]

/-- C7: `find_arbitrage` only ever reports h2h or totals opportunities, each
from a market with exactly two distinct outcome labels; a market whose odds
carry any other number of distinct outcome labels produces no opportunity,
silently. -/
theorem c7_two_way_markets_only (p s : ℚ) (events : List Event) :
    (∀ opp ∈ find_arbitrage p s events,
      (opp.market_type = "h2h" ∨ opp.market_type = "totals") ∧
      distinct_outcome_count opp.event opp.market_type = 2) ∧
    (∀ (e : Event) (mt : String), distinct_outcome_count e mt ≠ 2 →
      check_two_way_market p s e mt = []) := by
  have hcount : ∀ (e : Event) (mt : String),
      distinct_outcome_count e mt =
        (group_odds_by_outcome
          (e.odds_data.filter (fun o => o.market == mt))).length := by
    intro e mt
    rw [distinct_outcome_count, group_length_eq]
  constructor
  · intro opp hopp
    rw [find_arbitrage] at hopp
    rcases List.mem_flatMap.mp hopp with ⟨e, he, hmem⟩
    rcases List.mem_append.mp hmem with hm | hm
    · obtain ⟨b1, b2, _, _, hlen2, _, _, heq⟩ := mem_check_two_way _ _ _ _ _ hm
      subst heq
      exact ⟨Or.inl rfl, by rw [hcount]; exact hlen2⟩
    · obtain ⟨b1, b2, _, _, hlen2, _, _, heq⟩ := mem_check_two_way _ _ _ _ _ hm
      subst heq
      exact ⟨Or.inr rfl, by rw [hcount]; exact hlen2⟩
  · intro e mt hne
    by_contra hc
    obtain ⟨opp, hopp⟩ := List.exists_mem_of_ne_nil _ hc
    obtain ⟨_, _, _, _, hlen2, _, _, _⟩ := mem_check_two_way _ _ _ _ _ hopp
    exact hne (by rw [hcount]; exact hlen2)

/-- Evaluating the checker on `evW` yields exactly `oppW`. -/
theorem check_two_way_market_evW :
    check_two_way_market 2 1000 evW "h2h" = [oppW] := by
  have hg : group_odds_by_outcome
      (evW.odds_data.filter (fun o => o.market == "h2h")) =
      [("Chiefs", [⟨"draftkings", "h2h", "Chiefs", 21/10, none, none⟩]),
       ("Bills", [⟨"betmgm", "h2h", "Bills", 41/20, none, none⟩])] := rfl
  have hne : (evW.odds_data.filter (fun o => o.market == "h2h")).isEmpty
      = false := rfl
  simp only [check_two_way_market, calculate_implied_probability, hne,
    Bool.false_eq_true, if_false, hg, bestOdds, List.foldl_nil]
  rw [if_pos (by norm_num), if_pos (by norm_num)]
  simp only [List.cons.injEq, and_true, oppW, ArbitrageOpportunity.mk.injEq]
  norm_num [min_def]

/-- Evaluating the full analyzer on `[evW]` yields exactly `[oppW]`. -/
theorem find_arbitrage_evW : find_arbitrage 2 1000 [evW] = [oppW] := by
  have ht : check_two_way_market 2 1000 evW "totals" = [] := rfl
  simp only [find_arbitrage, List.flatMap_cons, List.flatMap_nil,
    check_two_way_market_evW, ht, List.append_nil]

/-- Witness for C5 on `evW` (prices 2.10 / 2.05, threshold 2, budget 1000). -/
theorem c5_profit_iff_witness :
    (check_two_way_market 2 1000 evW "h2h" ≠ [] ↔
      (1 / ((21:ℚ)/10) + 1 / ((41:ℚ)/20) < 1 ∧
        (1 / (1 / ((21:ℚ)/10) + 1 / ((41:ℚ)/20)) - 1) * 100 ≥ 2)) ∧
    oppW.profit_percentage =
      (1 / (1 / ((21:ℚ)/10) + 1 / ((41:ℚ)/20)) - 1) * 100 := by
  have h := c5_profit_iff 2 1000 evW "h2h" "Chiefs" "Bills"
    [⟨"draftkings", "h2h", "Chiefs", 21/10, none, none⟩]
    [⟨"betmgm", "h2h", "Bills", 41/20, none, none⟩]
    ⟨"draftkings", "h2h", "Chiefs", 21/10, none, none⟩
    ⟨"betmgm", "h2h", "Bills", 41/20, none, none⟩
    rfl rfl rfl (1 / ((21:ℚ)/10)) (1 / ((41:ℚ)/20)) rfl rfl
  exact ⟨h.1, h.2 oppW (by rw [check_two_way_market_evW]; exact List.Mem.head _)⟩

/-- Witness for C10 on `evW`. -/
theorem c10_no_div_by_zero_witness :
    ((("Chiefs",
        [(⟨"draftkings", "h2h", "Chiefs", 21/10, none, none⟩ : Odds)]) :
          String × List Odds).2 ≠ []) ∧
    (∃ b1 b2 : Odds,
      bestOdds [⟨"draftkings", "h2h", "Chiefs", 21/10, none, none⟩] =
        some b1 ∧
      bestOdds [⟨"betmgm", "h2h", "Bills", 41/20, none, none⟩] = some b2 ∧
      0 < b1.price ∧ 0 < b2.price ∧ 0 < 1 / b1.price ∧ 0 < 1 / b2.price ∧
      1 / b1.price + 1 / b2.price ≠ 0) := by
  have h := c10_no_div_by_zero evW "h2h" (by
    intro o ho
    simp [evW] at ho
    rcases ho with rfl | rfl <;> norm_num)
  exact ⟨h.1 _ (List.Mem.head _), h.2 "Chiefs" _ "Bills" _ rfl⟩

/-- Witness for C6 at the concrete reported opportunity `oppW`. -/
theorem c6_stake_allocation_witness :
    oppW.stake_1 =
      1000 * ((1 / oppW.odds_1) / (1 / oppW.odds_1 + 1 / oppW.odds_2)) ∧
    oppW.stake_2 =
      1000 * ((1 / oppW.odds_2) / (1 / oppW.odds_1 + 1 / oppW.odds_2)) ∧
    oppW.stake_1 * oppW.odds_1 = oppW.stake_2 * oppW.odds_2 ∧
    oppW.stake_1 + oppW.stake_2 = 1000 ∧
    0 ≤ oppW.stake_1 ∧ 0 ≤ oppW.stake_2 ∧
    oppW.guaranteed_profit = oppW.stake_1 * oppW.odds_1 - 1000 :=
  c6_stake_allocation 2 1000 [evW] (by norm_num) (by
    intro e he
    simp at he
    subst he
    intro o ho
    simp [evW] at ho
    rcases ho with rfl | rfl <;> norm_num)
    oppW (by rw [find_arbitrage_evW]; exact List.Mem.head _)

/-- Witness for C7: the reported opportunity `oppW` is on an allowed market
with exactly two distinct labels, and the three-outcome event `ev3` yields
nothing. -/
theorem c7_two_way_markets_only_witness :
    ((oppW.market_type = "h2h" ∨ oppW.market_type = "totals") ∧
      distinct_outcome_count oppW.event oppW.market_type = 2) ∧
    check_two_way_market 2 1000 ev3 "h2h" = [] :=
  ⟨(c7_two_way_markets_only 2 1000 [evW]).1 oppW
      (by rw [find_arbitrage_evW]; exact List.Mem.head _),
   (c7_two_way_markets_only 2 1000 []).2 ev3 "h2h" (by decide)⟩

end ROI
